import Mathlib

/-!
A verification development for the pebblepay block-graph engine
(`src/frontend/src/utils/contractSpecToBlocks.js`, `src/frontend/src/App.jsx`,
`src/frontend/src/components/Canvas.jsx`), shallowly embedded in Lean.

Modelling conventions:
* JS numbers (layout coordinates, velocities) are modelled as `ℚ`;
  completeness scores are `ℕ`.
* Optional / nullable JS fields are `Option` values; JS string truthiness
  (`undefined`, `null` and `""` are falsy) is `strTruthy` / `strOr`.
* The hit-test in `Canvas.jsx` compares Euclidean distances obtained with
  `Math.sqrt`; since every quantity involved is nonnegative and the algorithm
  only ever *compares* distances, the embedding works with squared distances
  throughout (`x ↦ x ^ 2` is strictly monotone on nonnegatives, so every
  comparison, hence the whole control flow, is preserved).  The radii 20 and
  30 thus appear as 400 and 900.
* The `requestAnimationFrame` momentum chain is modelled as a fuel-bounded
  recursion; a theorem below shows fuel 4 is never exhausted, so the bound is
  immaterial to the computed result.
-/

namespace PebblePay

/-- Handle side of a connection point (`fromSide` / `toSide`). -/
inductive Side where
  | left
  | right
deriving DecidableEq, Repr

/-- A canvas position `{x, y}`. -/
structure Position where
  x : ℚ
  y : ℚ
deriving DecidableEq, Repr

/-- A deliverable entry: either a bare string or an `{item}` object
(whose `item` field may be missing). -/
inductive Deliverable where
  | str (s : String)
  | obj (item : Option String)
deriving DecidableEq, Repr

/-- `freelancer` / `client` sub-object of the specification. -/
structure Party where
  name : Option String := none
  email : Option String := none
deriving DecidableEq, Repr

/-- `payment` sub-object of the specification. -/
structure Payment where
  amount : Option String := none
  currency : Option String := none
  schedule : Option String := none
deriving DecidableEq, Repr

/-- `timeline` sub-object of the specification. -/
structure Timeline where
  deadline : Option String := none
  start_date : Option String := none
deriving DecidableEq, Repr

/-- `quality_standards` sub-object of the specification. -/
structure Quality where
  max_revisions : Option Int := none
  acceptance_criteria : Option String := none
deriving DecidableEq, Repr

/-- `failure_scenarios.late_delivery` sub-object. -/
structure LateDelivery where
  penalty_type : Option String := none
deriving DecidableEq, Repr

/-- `failure_scenarios` sub-object of the specification. -/
structure FailureScenarios where
  late_delivery : Option LateDelivery := none
deriving DecidableEq, Repr

/-- `dispute_resolution` sub-object of the specification. -/
structure DisputeResolution where
  method : Option String := none
deriving DecidableEq, Repr

/-- The structured contract specification consumed by the mapper
(each field optional, as in the duck-typed source). -/
structure Specification where
  title : Option String := none
  freelancer : Option Party := none
  client : Option Party := none
  deliverables : Option (List Deliverable) := none
  payment : Option Payment := none
  timeline : Option Timeline := none
  quality_standards : Option Quality := none
  failure_scenarios : Option FailureScenarios := none
  dispute_resolution : Option DisputeResolution := none
deriving DecidableEq, Repr

/-- The `data` map attached to a block; fields not set by a given slot
default to `none` / `""`. -/
structure BlockData where
  label : String := ""
  content : String := ""
  role : Option String := none
  email : Option String := none
  items : Option (List Deliverable) := none
  amount : Option String := none
  currency : Option String := none
  schedule : Option String := none
  deadline : Option String := none
  start_date : Option String := none
  max_revisions : Option Int := none
  acceptance_criteria : Option String := none
  failure_scenarios : Option FailureScenarios := none
  dispute_resolution : Option DisputeResolution := none
  isNew : Bool := false
deriving DecidableEq, Repr

/-- A canvas block (node).  The block `type` is kept as a string as in the
source. -/
structure Block where
  id : String
  type : String
  title : String := ""
  subtitle : String := ""
  filled : Bool := false
  position : Position
  data : BlockData := {}
deriving DecidableEq, Repr

/-- A canvas edge.  The source fields `from` / `to` are Lean keywords and are
renamed `fromId` / `toId`. -/
structure Edge where
  id : String
  fromId : String
  toId : String
  fromSide : Side := Side.right
  toSide : Side := Side.left
deriving DecidableEq, Repr

/-- `BLOCK_POSITIONS` of `contractSpecToBlocks.js`. -/
def BLOCK_POSITIONS : String → Position
  | "meta" => ⟨400, 50⟩
  | "freelancer" => ⟨150, 180⟩
  | "client" => ⟨650, 180⟩
  | "deliverables" => ⟨400, 310⟩
  | "payment" => ⟨150, 440⟩
  | "timeline" => ⟨650, 440⟩
  | "quality" => ⟨400, 570⟩
  | "protection" => ⟨400, 700⟩
  | _ => ⟨0, 0⟩

/-- JS truthiness of an optional string: `undefined`/`null` and `""` are
falsy. -/
def strTruthy : Option String → Bool
  | some s => !(s == "")
  | none => false

/-- JS `o || d` for an optional string `o` and default `d`. -/
def strOr (o : Option String) (d : String) : String :=
  match o with
  | some s => if s == "" then d else s
  | none => d

/-- The value contributed by a deliverable entry:
`typeof d === 'string' ? d : d.item`. -/
def deliverableVal : Deliverable → Option String
  | Deliverable.str s => some s
  | Deliverable.obj item => item

/-- `deliverables.map(...).filter(Boolean).join(', ')`. -/
def deliverableText (ds : List Deliverable) : String :=
  String.intercalate ", "
    ((ds.filterMap deliverableVal).filter (fun s => !(s == "")))

/-- The meta slot predicate: `!!title` after `title = spec.title || ''`. -/
def metaFilledOf (spec : Specification) : Bool :=
  !(spec.title.getD "" == "")

/-- The freelancer slot predicate: `!!(freelancer.name || freelancer.email)`. -/
def freelancerFilledOf (spec : Specification) : Bool :=
  strTruthy (spec.freelancer.getD {}).name || strTruthy (spec.freelancer.getD {}).email

/-- The client slot predicate: `!!(client.name || client.email)`. -/
def clientFilledOf (spec : Specification) : Bool :=
  strTruthy (spec.client.getD {}).name || strTruthy (spec.client.getD {}).email

/-- The deliverables slot predicate: `deliverables.length > 0`. -/
def deliverablesFilledOf (spec : Specification) : Bool :=
  decide (0 < (spec.deliverables.getD []).length)

/-- The payment slot predicate: `!!(payment.amount && payment.currency)`. -/
def paymentFilledOf (spec : Specification) : Bool :=
  strTruthy (spec.payment.getD {}).amount && strTruthy (spec.payment.getD {}).currency

/-- The timeline slot predicate: `!!(timeline.deadline)`. -/
def timelineFilledOf (spec : Specification) : Bool :=
  strTruthy (spec.timeline.getD {}).deadline

/-- The quality slot predicate:
`quality.max_revisions !== null && quality.max_revisions !== undefined`. -/
def qualityFilledOf (spec : Specification) : Bool :=
  (spec.quality_standards.getD {}).max_revisions.isSome

/-- The protection slot predicate:
`!!(failure.late_delivery?.penalty_type || dispute.method)`. -/
def protectionFilledOf (spec : Specification) : Bool :=
  strTruthy ((spec.failure_scenarios.getD {}).late_delivery.bind LateDelivery.penalty_type)
    || strTruthy (spec.dispute_resolution.getD {}).method

/-- The currency glyph of the payment subtitle. -/
def currencySymbol (currency : Option String) : String :=
  if currency == some "GBP" then "£" else if currency == some "USD" then "$" else ""

/-- The (untrimmed) payment subtitle string. -/
def paymentSubtitleOf (spec : Specification) : String :=
  let payment := spec.payment.getD {}
  if paymentFilledOf spec then
    currencySymbol payment.currency ++ payment.amount.getD "" ++ " " ++ strOr payment.schedule ""
  else "How much & when?"

/-- Drop leading whitespace characters from a character list. -/
def dropLeadingWS : List Char → List Char
  | [] => []
  | c :: cs => if c.isWhitespace then dropLeadingWS cs else c :: cs

/-- JS `String.prototype.trim()`: strip whitespace from both ends (the
strings produced by the mapper only ever carry ASCII spaces at the ends). -/
def jsTrim (s : String) : String :=
  ⟨(dropLeadingWS (dropLeadingWS s.data).reverse).reverse⟩

/-- The canonical flow order of `generateAutomaticEdges`. -/
def flowOrder : List String :=
  ["block-meta", "block-freelancer", "block-client", "block-deliverables",
   "block-payment", "block-timeline", "block-quality", "block-protection"]

/-- `blockOrderMap.get(id) ?? 999`: index of an id in the flow order,
unknown ids map to 999. -/
def flowKey (b : Block) : ℕ :=
  (flowOrder.findIdx? (fun id => id == b.id)).getD 999

/-- Ordered insertion for the key-based stable sort. -/
def insertKey (key : Block → ℕ) (a : Block) : List Block → List Block
  | [] => [a]
  | b :: l => if key a ≤ key b then a :: b :: l else b :: insertKey key a l

/-- Stable sort by a numeric key, modelling the (stable, ES2019)
`Array.prototype.sort` with comparator `(a, b) => key(a) - key(b)`. -/
def sortByKey (key : Block → ℕ) : List Block → List Block
  | [] => []
  | a :: l => insertKey key a (sortByKey key l)

/-- The automatic edge between two consecutive filled blocks:
id `edge-${from.id}-${to.id}`, right side to left side. -/
def autoEdge (a b : Block) : Edge :=
  { id := "edge-" ++ a.id ++ "-" ++ b.id
    fromId := a.id
    toId := b.id
    fromSide := Side.right
    toSide := Side.left }

/-- The `for (let i = 1; ...)` loop of `generateAutomaticEdges`: one edge per
consecutive pair of the (sorted, filled) list. -/
def pairEdges : List Block → List Edge
  | a :: b :: rest => autoEdge a b :: pairEdges (b :: rest)
  | _ => []

/-- `generateAutomaticEdges` of `contractSpecToBlocks.js`: filter to filled
blocks, stably sort by flow-order index (unknown ids last), connect
consecutive pairs. -/
def generateAutomaticEdges (blocks : List Block) : List Edge :=
  pairEdges (sortByKey flowKey (blocks.filter Block.filled))

/-- `getEmptyBlocks` of `contractSpecToBlocks.js`: the placeholder state. -/
def getEmptyBlocks : List Block :=
  [{ id := "block-meta", type := "meta", title := "Contract Title",
     subtitle := "Start chatting to build...", filled := false,
     position := BLOCK_POSITIONS "meta",
     data := { label := "Contract", content := "" } },
   { id := "block-freelancer", type := "party", title := "Freelancer",
     subtitle := "You", filled := false,
     position := BLOCK_POSITIONS "freelancer",
     data := { label := "Freelancer", content := "", role := some "freelancer" } },
   { id := "block-client", type := "party", title := "Client",
     subtitle := "Your client", filled := false,
     position := BLOCK_POSITIONS "client",
     data := { label := "Client", content := "", role := some "client" } },
   { id := "block-deliverables", type := "deliverable", title := "Deliverables",
     subtitle := "What you\x27ll deliver", filled := false,
     position := BLOCK_POSITIONS "deliverables",
     data := { label := "Deliverables", content := "" } },
   { id := "block-payment", type := "payment", title := "Payment",
     subtitle := "How much & when", filled := false,
     position := BLOCK_POSITIONS "payment",
     data := { label := "Payment", content := "" } },
   { id := "block-timeline", type := "timeline", title := "Timeline",
     subtitle := "Deadline", filled := false,
     position := BLOCK_POSITIONS "timeline",
     data := { label := "Timeline", content := "" } },
   { id := "block-quality", type := "quality", title := "Quality",
     subtitle := "Standards", filled := false,
     position := BLOCK_POSITIONS "quality",
     data := { label := "Quality", content := "" } },
   { id := "block-protection", type := "protection", title := "Protections",
     subtitle := "Safety terms", filled := false,
     position := BLOCK_POSITIONS "protection",
     data := { label := "Protections", content := "" } }]

/-- The eight blocks built by `contractSpecToBlocks` for a non-null
specification. -/
def specBlocks (spec : Specification) : List Block :=
  let title := spec.title.getD ""
  let freelancer := spec.freelancer.getD {}
  let client := spec.client.getD {}
  let deliverables := spec.deliverables.getD []
  let payment := spec.payment.getD {}
  let timeline := spec.timeline.getD {}
  let quality := spec.quality_standards.getD {}
  let failure := spec.failure_scenarios.getD {}
  let dispute := spec.dispute_resolution.getD {}
  [{ id := "block-meta", type := "meta",
     title := if title == "" then "Contract Title" else title,
     subtitle := if metaFilledOf spec then "✓ Named" else "Waiting for details...",
     filled := metaFilledOf spec,
     position := BLOCK_POSITIONS "meta",
     data := { label := "Contract", content := title } },
   { id := "block-freelancer", type := "party", title := "Freelancer",
     subtitle := strOr freelancer.name "Who are you?",
     filled := freelancerFilledOf spec,
     position := BLOCK_POSITIONS "freelancer",
     data := { label := "Freelancer", content := strOr freelancer.name "",
               role := some "freelancer", email := freelancer.email } },
   { id := "block-client", type := "party", title := "Client",
     subtitle := strOr client.name "Who is your client?",
     filled := clientFilledOf spec,
     position := BLOCK_POSITIONS "client",
     data := { label := "Client", content := strOr client.name "",
               role := some "client", email := client.email } },
   { id := "block-deliverables", type := "deliverable", title := "Deliverables",
     subtitle := if deliverablesFilledOf spec then
         toString deliverables.length ++ " item" ++ (if 1 < deliverables.length then "s" else "")
       else "What will you deliver?",
     filled := deliverablesFilledOf spec,
     position := BLOCK_POSITIONS "deliverables",
     data := { label := "Deliverables", content := deliverableText deliverables,
               items := some deliverables } },
   { id := "block-payment", type := "payment", title := "Payment",
     subtitle := jsTrim (paymentSubtitleOf spec),
     filled := paymentFilledOf spec,
     position := BLOCK_POSITIONS "payment",
     data := { label := "Payment", content := paymentSubtitleOf spec,
               amount := payment.amount, currency := payment.currency,
               schedule := payment.schedule } },
   { id := "block-timeline", type := "timeline", title := "Timeline",
     subtitle := strOr timeline.deadline "When is it due?",
     filled := timelineFilledOf spec,
     position := BLOCK_POSITIONS "timeline",
     data := { label := "Timeline", content := strOr timeline.deadline "",
               deadline := timeline.deadline, start_date := timeline.start_date } },
   { id := "block-quality", type := "quality", title := "Quality",
     subtitle := if qualityFilledOf spec then
         toString (quality.max_revisions.getD 0) ++ " revisions"
       else "Revisions & standards",
     filled := qualityFilledOf spec,
     position := BLOCK_POSITIONS "quality",
     data := { label := "Quality",
               content := if qualityFilledOf spec then
                   toString (quality.max_revisions.getD 0) ++ " revisions included"
                 else "",
               max_revisions := quality.max_revisions,
               acceptance_criteria := quality.acceptance_criteria } },
   { id := "block-protection", type := "protection", title := "Protections",
     subtitle := if protectionFilledOf spec then "Terms defined" else "What if things go wrong?",
     filled := protectionFilledOf spec,
     position := BLOCK_POSITIONS "protection",
     data := { label := "Protections",
               content := if protectionFilledOf spec then "Failure scenarios & disputes" else "",
               failure_scenarios := some failure,
               dispute_resolution := some dispute } }]

/-- The completeness score accumulated by the trailing `if` chain of
`contractSpecToBlocks`, clamped with `Math.min(100, ·)`. -/
def completenessOf (spec : Specification) : ℕ :=
  min 100
    ((if metaFilledOf spec then 10 else 0)
      + (if freelancerFilledOf spec then 15 else 0)
      + (if clientFilledOf spec then 15 else 0)
      + (if deliverablesFilledOf spec then 15 else 0)
      + (if paymentFilledOf spec then 15 else 0)
      + (if timelineFilledOf spec then 15 else 0)
      + (if qualityFilledOf spec then 10 else 0)
      + (if protectionFilledOf spec then 5 else 0))

/-- The view model returned by the mapper. -/
structure Snapshot where
  blocks : List Block
  edges : List Edge
  completeness : ℕ
deriving DecidableEq, Repr

/-- `contractSpecToBlocks` of `contractSpecToBlocks.js`; the JS `null`
specification is `none`. -/
def contractSpecToBlocks : Option Specification → Snapshot
  | none => { blocks := getEmptyBlocks, edges := [], completeness := 0 }
  | some spec =>
    { blocks := specBlocks spec
      edges := generateAutomaticEdges (specBlocks spec)
      completeness := completenessOf spec }

/-- The per-block change test of `getChangedBlockIds`: the id is missing from
the previous list, or `filled` or `subtitle` differs from the first
previous block with the same id. -/
def blockChanged (oldBlocks : List Block) (nb : Block) : Bool :=
  match oldBlocks.find? (fun b => b.id == nb.id) with
  | none => true
  | some ob => !(ob.filled == nb.filled) || !(ob.subtitle == nb.subtitle)

/-- `getChangedBlockIds` of `contractSpecToBlocks.js` (the push loop over the
new block list). -/
def getChangedBlockIds (oldBlocks : List Block) : List Block → List String
  | [] => []
  | nb :: rest =>
    if blockChanged oldBlocks nb then nb.id :: getChangedBlockIds oldBlocks rest
    else getChangedBlockIds oldBlocks rest

/-- The canonical graph state owned by `App.jsx` (`blocks` and `edges`). -/
structure Graph where
  blocks : List Block
  edges : List Edge
deriving DecidableEq, Repr

/-- `handleDeleteBlock` of `App.jsx`: drop the block with the given id and
every edge whose `from` or `to` equals it. -/
def deleteBlock (g : Graph) (blockId : String) : Graph :=
  { blocks := g.blocks.filter (fun b => !(b.id == blockId))
    edges := g.edges.filter (fun e => !(e.fromId == blockId) && !(e.toId == blockId)) }

/-- The position-commit step of the momentum loop / plain drag end
(`blocks.map(block => block.id === nodeId ? {...block, position} : block)`). -/
def updatePosition (g : Graph) (nodeId : String) (p : Position) : Graph :=
  { g with blocks := g.blocks.map (fun b => if b.id == nodeId then { b with position := p } else b) }

/-- `getConnectionPoint` of `Canvas.jsx`.  Every `NODE_CONFIG` entry (and the
`payment` fallback used for unknown types) has width 160 and height 80, so
the per-type lookup collapses to those constants; an unknown id yields
`{x: 0, y: 0}`. -/
def getConnectionPoint (blocks : List Block) (nodeId : String) (side : Side) : Position :=
  match blocks.find? (fun n => n.id == nodeId) with
  | none => ⟨0, 0⟩
  | some n => ⟨n.position.x + (if side = Side.left then 0 else 160), n.position.y + 80 / 2⟩

/-- Squared Euclidean distance (see the header note on `Math.sqrt`). -/
def distSq (p q : Position) : ℚ :=
  (p.x - q.x) ^ 2 + (p.y - q.y) ^ 2

/-- The `blocks.forEach` scan of the connection-point `onDragEnd` handler in
`Canvas.jsx`, carried out on squared distances: skip the origin block, take a
block's left point when strictly closer than the current minimum, otherwise
its right point when strictly closer. -/
def hitTestAux (blocks : List Block) (origin : String) (pos : Position) :
    List Block → ℚ → Option (String × Side) → ℚ × Option (String × Side)
  | [], m, t => (m, t)
  | b :: rest, m, t =>
    if b.id == origin then hitTestAux blocks origin pos rest m t
    else if distSq pos (getConnectionPoint blocks b.id Side.left) < m then
      hitTestAux blocks origin pos rest
        (distSq pos (getConnectionPoint blocks b.id Side.left)) (some (b.id, Side.left))
    else if distSq pos (getConnectionPoint blocks b.id Side.right) < m then
      hitTestAux blocks origin pos rest
        (distSq pos (getConnectionPoint blocks b.id Side.right)) (some (b.id, Side.right))
    else hitTestAux blocks origin pos rest m t

/-- The full nearest-point hit-test: initial minimum `radiusSq`
(400 in the first Canvas variant, 900 in the second), no initial target. -/
def hitTest (blocks : List Block) (origin : String) (pos : Position) (radiusSq : ℚ) :
    Option (String × Side) :=
  (hitTestAux blocks origin pos blocks radiusSq none).2

/-- `handleConnectionEnd` of `Canvas.jsx`: append a manual edge only when a
target was hit and it is a truthy id different from the origin
(`targetNodeId && targetNodeId !== connectingFrom.nodeId`); the edge id
carries a `Date.now()` timestamp, modelled by `now`. -/
def handleConnectionEnd (connectingFrom : Option (String × Side))
    (target : Option (String × Side)) (edges : List Edge) (now : ℕ) : List Edge :=
  match connectingFrom with
  | none => edges
  | some (fid, fside) =>
    match target with
    | some (tid, tside) =>
      if !(tid == "") && !(tid == fid) then
        edges ++ [{ id := "edge-" ++ fid ++ "-" ++ tid ++ "-" ++ toString now
                    fromId := fid, toId := tid, fromSide := fside, toSide := tside }]
      else edges
    | none => edges

/-- The end of a connection-draw gesture: hit-test from the release point,
then `handleConnectionEnd`; only `edges` can change. -/
def connectionDragEnd (g : Graph) (origin : String) (originSide : Side)
    (pos : Position) (radiusSq : ℚ) (now : ℕ) : Graph :=
  { g with
    edges := handleConnectionEnd (some (origin, originSide))
      (hitTest g.blocks origin pos radiusSq) g.edges now }

/-- `pointerPos.y > binAreaTop` with `binAreaTop = stageSize.height - 100`:
the disposal-band test recomputed on every drag move. -/
def handleNodeDrag (stageHeight pointerY : ℚ) : Bool :=
  decide (stageHeight - 100 < pointerY)

/-- `max(-15, min(15, v * 0.3))`: the release velocity damped by 0.3 and
clamped to the maximum per-step displacement. -/
def dragEndVel (v : ℚ) : ℚ :=
  max (-15) (min 15 (3 / 10 * v))

/-- The recursive `applyMomentum` frame chain of `Canvas.jsx`: commit once
both velocity components are below 0.5, otherwise advance the position by the
velocity and re-damp by 0.3.  The fuel argument bounds the recursion; the
termination theorem below shows fuel 4 always suffices, so the computed
result is the loop's true fixpoint.  Returns the committed position and the
number of advancing steps taken. -/
def applyMomentum : ℕ → ℚ → ℚ → ℚ → ℚ → Option (ℚ × ℚ × ℕ)
  | 0, _, _, _, _ => none
  | fuel + 1, x, y, vx, vy =>
    if |vx| < 1 / 2 ∧ |vy| < 1 / 2 then some (x, y, 0)
    else
      match applyMomentum fuel (x + vx) (y + vy) (3 / 10 * vx) (3 / 10 * vy) with
      | some (xf, yf, s) => some (xf, yf, s + 1)
      | none => none

/-- Outcome of `handleNodeDragEnd`: either the dragged block was dropped on
the bin and deleted, or a momentum phase of `steps` advancing steps ran and
committed a final position. -/
inductive DragOutcome where
  | deleted (g : Graph)
  | momentum (g : Graph) (steps : ℕ)
deriving DecidableEq, Repr

/-- `handleNodeDragEnd` of `Canvas.jsx` (first variant): delete and return
immediately when released over the bin, otherwise run the momentum phase
from the raw release point `(newX, newY)` with the recorded velocity
`(vx, vy)` and commit the final position. -/
def handleNodeDragEnd (isOverBin : Bool) (g : Graph) (nodeId : String)
    (newX newY vx vy : ℚ) : Option DragOutcome :=
  if isOverBin then some (DragOutcome.deleted (deleteBlock g nodeId))
  else
    match applyMomentum 4 newX newY (dragEndVel vx) (dragEndVel vy) with
    | some (xf, yf, s) => some (DragOutcome.momentum (updatePosition g nodeId ⟨xf, yf⟩) s)
    | none => none

/-- The fixed weight of each canonical slot (meta 10, freelancer 15, client 15,
deliverables 15, payment 15, timeline 15, quality 10, protection 5). -/
def slotWeight : String → ℕ
  | "block-meta" => 10
  | "block-freelancer" => 15
  | "block-client" => 15
  | "block-deliverables" => 15
  | "block-payment" => 15
  | "block-timeline" => 15
  | "block-quality" => 10
  | "block-protection" => 5
  | _ => 0

/-- Sum of the weights of the filled blocks of a list. -/
def sumSlotWeights (bs : List Block) : ℕ :=
  (bs.map (fun b => if b.filled then slotWeight b.id else 0)).sum

/-- Claim C1: for every specification (including the null one), the mapper's
completeness equals the sum of the weights of the slots whose filled
predicate holds, and lies between 0 and 100. -/
theorem claim_C1 (spec : Option Specification) :
    (contractSpecToBlocks spec).completeness
        = sumSlotWeights (contractSpecToBlocks spec).blocks ∧
    0 ≤ (contractSpecToBlocks spec).completeness ∧
    (contractSpecToBlocks spec).completeness ≤ 100 := by
  cases spec with
  | none => exact ⟨by decide, Nat.zero_le _, by decide⟩
  | some s =>
    have hsum : sumSlotWeights (specBlocks s) =
        (if metaFilledOf s then 10 else 0)
          + (if freelancerFilledOf s then 15 else 0)
          + (if clientFilledOf s then 15 else 0)
          + (if deliverablesFilledOf s then 15 else 0)
          + (if paymentFilledOf s then 15 else 0)
          + (if timelineFilledOf s then 15 else 0)
          + (if qualityFilledOf s then 10 else 0)
          + (if protectionFilledOf s then 5 else 0) := by
      simp only [sumSlotWeights, specBlocks, List.map_cons, List.map_nil,
        List.sum_cons, List.sum_nil, slotWeight]
      omega
    have h1 : (if metaFilledOf s then (10:ℕ) else 0) ≤ 10 := by split <;> omega
    have h2 : (if freelancerFilledOf s then (15:ℕ) else 0) ≤ 15 := by split <;> omega
    have h3 : (if clientFilledOf s then (15:ℕ) else 0) ≤ 15 := by split <;> omega
    have h4 : (if deliverablesFilledOf s then (15:ℕ) else 0) ≤ 15 := by split <;> omega
    have h5 : (if paymentFilledOf s then (15:ℕ) else 0) ≤ 15 := by split <;> omega
    have h6 : (if timelineFilledOf s then (15:ℕ) else 0) ≤ 15 := by split <;> omega
    have h7 : (if qualityFilledOf s then (10:ℕ) else 0) ≤ 10 := by split <;> omega
    have h8 : (if protectionFilledOf s then (5:ℕ) else 0) ≤ 5 := by split <;> omega
    refine ⟨?_, Nat.zero_le _, ?_⟩
    · show completenessOf s = sumSlotWeights (specBlocks s)
      rw [hsum, completenessOf]
      omega
    · show completenessOf s ≤ 100
      rw [completenessOf]
      omega

/-- Claim C10: the null-mapped and empty-object-mapped block lists share ids,
all-false filled flags and completeness 0, but differ in every subtitle, so
the diff of the two lists is all eight canonical ids. -/
theorem claim_C10 :
    (contractSpecToBlocks none).blocks.map Block.id
        = (contractSpecToBlocks (some {})).blocks.map Block.id ∧
    ((contractSpecToBlocks none).blocks.all (fun b => !b.filled)) = true ∧
    ((contractSpecToBlocks (some {})).blocks.all (fun b => !b.filled)) = true ∧
    (contractSpecToBlocks none).completeness = 0 ∧
    (contractSpecToBlocks (some {})).completeness = 0 ∧
    (((contractSpecToBlocks none).blocks.zip (contractSpecToBlocks (some {})).blocks).all
        (fun p => !(p.1.subtitle == p.2.subtitle))) = true ∧
    getChangedBlockIds (contractSpecToBlocks none).blocks
        (contractSpecToBlocks (some {})).blocks
        = ["block-meta", "block-freelancer", "block-client", "block-deliverables",
           "block-payment", "block-timeline", "block-quality", "block-protection"] := by
  refine ⟨?_, ?_, ?_, ?_, ?_, ?_, ?_⟩ <;> decide

lemma strTruthy_eq_true {o : Option String} :
    strTruthy o = true ↔ ∃ s, o = some s ∧ s ≠ "" := by
  cases o <;> simp [strTruthy]

lemma metaFilledOf_iff (spec : Specification) :
    metaFilledOf spec = true ↔ ∃ s, spec.title = some s ∧ s ≠ "" := by
  cases h : spec.title <;> simp [metaFilledOf, h]

lemma paymentFilledOf_iff (spec : Specification) :
    paymentFilledOf spec = true ↔
      ∃ p a c, spec.payment = some p ∧ p.amount = some a ∧ a ≠ ""
        ∧ p.currency = some c ∧ c ≠ "" := by
  cases hp : spec.payment with
  | none => simp [paymentFilledOf, hp, strTruthy]
  | some p =>
    simp only [paymentFilledOf, hp, Option.getD_some, Bool.and_eq_true, strTruthy_eq_true]
    constructor
    · rintro ⟨⟨a, ha, ha'⟩, ⟨c, hc, hc'⟩⟩
      exact ⟨p, a, c, rfl, ha, ha', hc, hc'⟩
    · rintro ⟨p', a, c, hp', ha, ha', hc, hc'⟩
      cases hp'
      exact ⟨⟨a, ha, ha'⟩, ⟨c, hc, hc'⟩⟩

lemma qualityFilledOf_iff (spec : Specification) :
    qualityFilledOf spec = true ↔
      ∃ q mr, spec.quality_standards = some q ∧ q.max_revisions = some mr := by
  cases hq : spec.quality_standards with
  | none => simp [qualityFilledOf, hq, Option.isSome]
  | some q =>
    simp only [qualityFilledOf, hq, Option.getD_some, Option.isSome_iff_exists]
    constructor
    · rintro ⟨mr, hmr⟩; exact ⟨q, mr, rfl, hmr⟩
    · rintro ⟨q', mr, hq', hmr⟩; cases hq'; exact ⟨mr, hmr⟩

/-- Claim C8: in the mapped block list, the meta block is filled iff the
title is a non-empty string, the payment block is filled iff both
`payment.amount` and `payment.currency` hold (non-empty) values, and the
quality block is filled iff `quality_standards.max_revisions` is neither
null nor undefined. -/
theorem claim_C8 (spec : Specification) :
    (((contractSpecToBlocks (some spec)).blocks.find? (fun b => b.id == "block-meta")).map
        Block.filled = some true ↔ ∃ s, spec.title = some s ∧ s ≠ "") ∧
    (((contractSpecToBlocks (some spec)).blocks.find? (fun b => b.id == "block-payment")).map
        Block.filled = some true ↔ ∃ p a c, spec.payment = some p ∧ p.amount = some a ∧ a ≠ ""
          ∧ p.currency = some c ∧ c ≠ "") ∧
    (((contractSpecToBlocks (some spec)).blocks.find? (fun b => b.id == "block-quality")).map
        Block.filled = some true ↔
      ∃ q mr, spec.quality_standards = some q ∧ q.max_revisions = some mr) := by
  have hm : ((contractSpecToBlocks (some spec)).blocks.find? (fun b => b.id == "block-meta")).map
      Block.filled = some (metaFilledOf spec) := rfl
  have hp : ((contractSpecToBlocks (some spec)).blocks.find? (fun b => b.id == "block-payment")).map
      Block.filled = some (paymentFilledOf spec) := rfl
  have hq : ((contractSpecToBlocks (some spec)).blocks.find? (fun b => b.id == "block-quality")).map
      Block.filled = some (qualityFilledOf spec) := rfl
  rw [hm, hp, hq]
  simp only [Option.some.injEq]
  exact ⟨metaFilledOf_iff spec, paymentFilledOf_iff spec, qualityFilledOf_iff spec⟩

lemma blockChanged_iff (oldBlocks : List Block) (nb : Block) :
    blockChanged oldBlocks nb = true ↔
      oldBlocks.find? (fun b => b.id == nb.id) = none ∨
      ∃ ob, oldBlocks.find? (fun b => b.id == nb.id) = some ob ∧
        (ob.filled ≠ nb.filled ∨ ob.subtitle ≠ nb.subtitle) := by
  cases h : oldBlocks.find? (fun b => b.id == nb.id) with
  | none => simp [blockChanged, h]
  | some ob =>
    simp only [blockChanged, h, reduceCtorEq, Option.some.injEq, false_or]
    constructor
    · intro hb
      refine ⟨ob, rfl, ?_⟩
      rcases Bool.or_eq_true_iff.mp hb with h' | h'
      · exact Or.inl (by simpa using h')
      · exact Or.inr (by simpa using h')
    · rintro ⟨ob', hob', hne⟩
      cases hob'
      rcases hne with h' | h'
      · exact Bool.or_eq_true_iff.mpr (Or.inl (by simpa using h'))
      · exact Bool.or_eq_true_iff.mpr (Or.inr (by simpa using h'))

lemma mem_getChangedBlockIds (oldBlocks newBlocks : List Block) (id : String) :
    id ∈ getChangedBlockIds oldBlocks newBlocks ↔
      ∃ nb ∈ newBlocks, nb.id = id ∧ blockChanged oldBlocks nb = true := by
  induction newBlocks with
  | nil => simp [getChangedBlockIds]
  | cons nb rest ih =>
    cases h : blockChanged oldBlocks nb <;>
      (simp [getChangedBlockIds, h, ih]
       try aesop)

lemma getChangedBlockIds_nilOf (oldBlocks newBlocks : List Block)
    (h : ∀ nb ∈ newBlocks, blockChanged oldBlocks nb = false) :
    getChangedBlockIds oldBlocks newBlocks = [] := by
  induction newBlocks with
  | nil => rfl
  | cons nb rest ih =>
    have hn := h nb (List.mem_cons_self _ _)
    have hrest := ih (fun b hb => h b (List.mem_cons_of_mem _ hb))
    simp [getChangedBlockIds, hn, hrest]

/-- Claim C3: `getChangedBlockIds` returns exactly the ids of new blocks that
are missing from the previous list or differ from the same-id previous block
in `filled` or `subtitle`; per-id agreement on those two fields yields the
empty diff, and every flipped `filled` flag puts its id in the diff
(position changes are invisible to the comparison). -/
theorem claim_C3 (oldBlocks newBlocks : List Block) :
    (∀ id : String, id ∈ getChangedBlockIds oldBlocks newBlocks ↔
        ∃ nb ∈ newBlocks, nb.id = id ∧
          (oldBlocks.find? (fun b => b.id == nb.id) = none ∨
            ∃ ob, oldBlocks.find? (fun b => b.id == nb.id) = some ob ∧
              (ob.filled ≠ nb.filled ∨ ob.subtitle ≠ nb.subtitle))) ∧
    ((∀ nb ∈ newBlocks, ∃ ob, oldBlocks.find? (fun b => b.id == nb.id) = some ob ∧
        ob.filled = nb.filled ∧ ob.subtitle = nb.subtitle) →
      getChangedBlockIds oldBlocks newBlocks = []) ∧
    (∀ nb ∈ newBlocks, ∀ ob, oldBlocks.find? (fun b => b.id == nb.id) = some ob →
      ob.filled ≠ nb.filled → nb.id ∈ getChangedBlockIds oldBlocks newBlocks) := by
  refine ⟨?_, ?_, ?_⟩
  · intro id
    rw [mem_getChangedBlockIds]
    constructor
    · rintro ⟨nb, hnb, rfl, hc⟩
      exact ⟨nb, hnb, rfl, (blockChanged_iff _ _).mp hc⟩
    · rintro ⟨nb, hnb, rfl, hc⟩
      exact ⟨nb, hnb, rfl, (blockChanged_iff _ _).mpr hc⟩
  · intro hagree
    refine getChangedBlockIds_nilOf _ _ (fun nb hnb => ?_)
    obtain ⟨ob, hfind, hf, hs⟩ := hagree nb hnb
    simp [blockChanged, hfind, hf, hs]
  · intro nb hnb ob hfind hflip
    rw [mem_getChangedBlockIds]
    exact ⟨nb, hnb, rfl, (blockChanged_iff _ _).mpr (Or.inr ⟨ob, hfind, Or.inl hflip⟩)⟩

/-- Claim C4: `deleteBlock` removes exactly the blocks with the given id and
exactly the edges referencing it as `from` or `to`; the surviving blocks and
edges are the original records, in the original order. -/
theorem claim_C4 (g : Graph) (blockId : String) :
    (deleteBlock g blockId).blocks.Sublist g.blocks ∧
    (∀ b : Block, b ∈ (deleteBlock g blockId).blocks ↔ b ∈ g.blocks ∧ b.id ≠ blockId) ∧
    (deleteBlock g blockId).edges.Sublist g.edges ∧
    (∀ e : Edge, e ∈ (deleteBlock g blockId).edges ↔
      e ∈ g.edges ∧ e.fromId ≠ blockId ∧ e.toId ≠ blockId) := by
  refine ⟨List.filter_sublist _, fun b => ?_, List.filter_sublist _, fun e => ?_⟩
  · simp [deleteBlock, List.mem_filter]
  · simp [deleteBlock, List.mem_filter, and_assoc]

lemma insertKey_perm (key : Block → ℕ) (a : Block) (l : List Block) :
    (insertKey key a l).Perm (a :: l) := by
  induction l with
  | nil => simp [insertKey]
  | cons b l ih =>
    rw [insertKey]
    split
    · exact List.Perm.refl _
    · exact (ih.cons b).trans (List.Perm.swap a b l)

lemma sortByKey_perm (key : Block → ℕ) (l : List Block) :
    (sortByKey key l).Perm l := by
  induction l with
  | nil => simp [sortByKey]
  | cons a l ih => exact (insertKey_perm key a (sortByKey key l)).trans (ih.cons a)

lemma mem_insertKey {key : Block → ℕ} {a x : Block} {l : List Block} :
    x ∈ insertKey key a l ↔ x = a ∨ x ∈ l := by
  rw [(insertKey_perm key a l).mem_iff, List.mem_cons]

lemma insertKey_pairwise (key : Block → ℕ) (a : Block) (l : List Block)
    (hl : l.Pairwise (fun x y => key x ≤ key y)) :
    (insertKey key a l).Pairwise (fun x y => key x ≤ key y) := by
  induction l with
  | nil => simp [insertKey]
  | cons b l ih =>
    rw [insertKey]
    rcases List.pairwise_cons.mp hl with ⟨hb, hl'⟩
    split
    · rename_i hab
      refine List.pairwise_cons.mpr ⟨?_, hl⟩
      intro x hx
      rcases List.mem_cons.mp hx with rfl | hx
      · exact hab
      · exact le_trans hab (hb x hx)
    · rename_i hab
      refine List.pairwise_cons.mpr ⟨?_, ih hl'⟩
      intro x hx
      rcases mem_insertKey.mp hx with rfl | hx
      · omega
      · exact hb x hx

lemma sortByKey_pairwise (key : Block → ℕ) (l : List Block) :
    (sortByKey key l).Pairwise (fun x y => key x ≤ key y) := by
  induction l with
  | nil => simp [sortByKey]
  | cons a l ih => exact insertKey_pairwise key a (sortByKey key l) ih

lemma filter_insertKey (key : Block → ℕ) (k : ℕ) (a : Block) (l : List Block) :
    (insertKey key a l).filter (fun b => key b == k)
      = if key a == k then a :: l.filter (fun b => key b == k)
        else l.filter (fun b => key b == k) := by
  induction l with
  | nil => cases hak : key a == k <;> simp [insertKey, List.filter, hak]
  | cons b l ih =>
    rw [insertKey]
    split
    · cases hak : key a == k <;> simp [List.filter, hak]
    · rename_i hab
      have hba : key b < key a := by omega
      by_cases hk : key a = k
      · have hbk : (key b == k) = false := beq_false_of_ne (by omega)
        simp [List.filter, hbk, ih, hk]
      · have hak : (key a == k) = false := beq_false_of_ne hk
        simp only [List.filter, ih, hak, Bool.false_eq_true, if_false]

lemma filter_sortByKey (key : Block → ℕ) (k : ℕ) (l : List Block) :
    (sortByKey key l).filter (fun b => key b == k) = l.filter (fun b => key b == k) := by
  induction l with
  | nil => rfl
  | cons a l ih =>
    rw [sortByKey, filter_insertKey, List.filter]
    split
    · rename_i h
      simp only [h, ih]
    · rename_i h
      have : (key a == k) = false := by
        cases hak : key a == k
        · rfl
        · exact absurd hak (by simpa using h)
      simp only [this, Bool.false_eq_true, if_false, ih]

lemma pairEdges_eq_zipWith (l : List Block) :
    pairEdges l = List.zipWith autoEdge l l.tail := by
  induction l with
  | nil => rfl
  | cons a l ih =>
    cases l with
    | nil => rfl
    | cons b rest =>
      simp only [pairEdges, List.tail_cons, List.zipWith_cons_cons]
      exact congrArg _ ih

lemma pairEdges_length (l : List Block) :
    (pairEdges l).length = l.length - 1 := by
  induction l with
  | nil => rfl
  | cons a l ih =>
    cases l with
    | nil => rfl
    | cons b rest =>
      simp only [pairEdges, List.length_cons] at *
      omega

lemma pairEdges_shape (l : List Block) :
    ∀ e ∈ pairEdges l,
      e.fromSide = Side.right ∧ e.toSide = Side.left
        ∧ e.id = "edge-" ++ e.fromId ++ "-" ++ e.toId := by
  induction l with
  | nil => simp [pairEdges]
  | cons a l ih =>
    cases l with
    | nil => simp [pairEdges]
    | cons b rest =>
      intro e he
      rcases List.mem_cons.mp he with rfl | he
      · exact ⟨rfl, rfl, rfl⟩
      · exact ih e he

/-- Claim C2: `generateAutomaticEdges` stably sorts the filled blocks by flow
order (unknown ids, keyed 999, last), connects each consecutive pair right
side to left side, yields `N - 1` edges for `N` filled blocks, and each edge
id is determined solely by the two endpoint ids. -/
theorem claim_C2 (blocks : List Block) :
    (sortByKey flowKey (blocks.filter Block.filled)).Perm (blocks.filter Block.filled) ∧
    (sortByKey flowKey (blocks.filter Block.filled)).Pairwise
        (fun a b => flowKey a ≤ flowKey b) ∧
    (∀ k : ℕ, (sortByKey flowKey (blocks.filter Block.filled)).filter (fun b => flowKey b == k)
        = (blocks.filter Block.filled).filter (fun b => flowKey b == k)) ∧
    generateAutomaticEdges blocks
        = List.zipWith autoEdge (sortByKey flowKey (blocks.filter Block.filled))
            (sortByKey flowKey (blocks.filter Block.filled)).tail ∧
    (generateAutomaticEdges blocks).length = (blocks.filter Block.filled).length - 1 ∧
    (∀ e ∈ generateAutomaticEdges blocks,
      e.fromSide = Side.right ∧ e.toSide = Side.left
        ∧ e.id = "edge-" ++ e.fromId ++ "-" ++ e.toId) := by
  refine ⟨sortByKey_perm _ _, sortByKey_pairwise _ _, fun k => filter_sortByKey _ k _,
    pairEdges_eq_zipWith _, ?_, pairEdges_shape _⟩
  rw [generateAutomaticEdges, pairEdges_length, (sortByKey_perm _ _).length_eq]

lemma abs_dragEndVel_le (v : ℚ) : |dragEndVel v| ≤ 15 := by
  rw [dragEndVel, abs_le]
  constructor
  · exact le_max_left _ _
  · exact max_le (by norm_num) (min_le_left _ _)

lemma applyMomentum_level (n : ℕ) :
    ∀ x y vx vy : ℚ, |vx| < 1 / 2 * (10 / 3) ^ n → |vy| < 1 / 2 * (10 / 3) ^ n →
      ∃ xf yf s, applyMomentum (n + 1) x y vx vy = some (xf, yf, s) ∧ s ≤ n ∧
        |xf - x| ≤ 10 / 7 * |vx| ∧ |yf - y| ≤ 10 / 7 * |vy| := by
  induction n with
  | zero =>
    intro x y vx vy hx hy
    norm_num at hx hy
    refine ⟨x, y, 0, ?_, le_refl 0, ?_, ?_⟩
    · rw [applyMomentum, if_pos ⟨hx, hy⟩]
    · simp
    · simp
  | succ n ih =>
    intro x y vx vy hx hy
    by_cases hsmall : |vx| < 1 / 2 ∧ |vy| < 1 / 2
    · refine ⟨x, y, 0, ?_, Nat.zero_le _, ?_, ?_⟩
      · rw [applyMomentum, if_pos hsmall]
      · simp
      · simp
    · have hpow : (1 / 2 : ℚ) * (10 / 3) ^ (n + 1) = 1 / 2 * (10 / 3) ^ n * (10 / 3) := by
        rw [pow_succ]; ring
      have hx' : |3 / 10 * vx| < 1 / 2 * (10 / 3) ^ n := by
        rw [abs_mul, abs_of_pos (by norm_num : (0 : ℚ) < 3 / 10)]
        rw [hpow] at hx
        linarith
      have hy' : |3 / 10 * vy| < 1 / 2 * (10 / 3) ^ n := by
        rw [abs_mul, abs_of_pos (by norm_num : (0 : ℚ) < 3 / 10)]
        rw [hpow] at hy
        linarith
      obtain ⟨xf, yf, s, heq, hs, hbx, hby⟩ :=
        ih (x + vx) (y + vy) (3 / 10 * vx) (3 / 10 * vy) hx' hy'
      refine ⟨xf, yf, s + 1, ?_, by omega, ?_, ?_⟩
      · rw [applyMomentum, if_neg hsmall, heq]
      · have habs : |xf - x| ≤ |xf - (x + vx)| + |vx| := by
          have := abs_add (xf - (x + vx)) vx
          have harr : xf - (x + vx) + vx = xf - x := by ring
          rwa [harr] at this
        rw [abs_mul, abs_of_pos (by norm_num : (0 : ℚ) < 3 / 10)] at hbx
        have h0 : (0 : ℚ) ≤ |vx| := abs_nonneg _
        linarith
      · have habs : |yf - y| ≤ |yf - (y + vy)| + |vy| := by
          have := abs_add (yf - (y + vy)) vy
          have harr : yf - (y + vy) + vy = yf - y := by ring
          rwa [harr] at this
        rw [abs_mul, abs_of_pos (by norm_num : (0 : ℚ) < 3 / 10)] at hby
        have h0 : (0 : ℚ) ≤ |vy| := abs_nonneg _
        linarith

lemma applyMomentum_total (x y vx vy : ℚ) (hx : |vx| ≤ 15) (hy : |vy| ≤ 15) :
    ∃ xf yf s, applyMomentum 4 x y vx vy = some (xf, yf, s) ∧ s ≤ 3 ∧
      |xf - x| ≤ 10 / 7 * |vx| ∧ |yf - y| ≤ 10 / 7 * |vy| :=
  applyMomentum_level 3 x y vx vy (by norm_num at *; linarith) (by norm_num at *; linarith)

/-- Claim C5: for every release outside the disposal band and every recorded
velocity, the momentum loop (initial velocity damped by 0.3 and clamped to
per-axis magnitude 15, each step advancing by the velocity and re-damping by
0.3, stopping when both components are below 0.5) terminates within 3
advancing steps and commits a position whose offset from the raw release
point is geometrically bounded: at most `10/7` times the initial per-axis
velocity, hence at most `150/7` layout units. -/
theorem claim_C5 (g : Graph) (nodeId : String) (newX newY vx vy : ℚ) :
    ∃ xf yf steps,
      handleNodeDragEnd false g nodeId newX newY vx vy
          = some (DragOutcome.momentum (updatePosition g nodeId ⟨xf, yf⟩) steps) ∧
      steps ≤ 3 ∧
      |xf - newX| ≤ 10 / 7 * |dragEndVel vx| ∧ |yf - newY| ≤ 10 / 7 * |dragEndVel vy| ∧
      |xf - newX| ≤ 150 / 7 ∧ |yf - newY| ≤ 150 / 7 := by
  obtain ⟨xf, yf, s, heq, hs, hbx, hby⟩ :=
    applyMomentum_total newX newY (dragEndVel vx) (dragEndVel vy)
      (abs_dragEndVel_le vx) (abs_dragEndVel_le vy)
  refine ⟨xf, yf, s, ?_, hs, hbx, hby, ?_, ?_⟩
  · rw [handleNodeDragEnd, if_neg (by simp), heq]
  · have := abs_dragEndVel_le vx
    linarith
  · have := abs_dragEndVel_le vy
    linarith

/-- Claim C6: when the tracked disposal-band flag is set (the last drag-move
pointer lay in the bottom 100 layout units of the canvas),
`handleNodeDragEnd` deletes the dragged block (cascading edge removal) and
returns at once: no momentum step runs and no position is committed. -/
theorem claim_C6 (g : Graph) (nodeId : String) (stageHeight pointerY newX newY vx vy : ℚ)
    (h : stageHeight - 100 < pointerY) :
    handleNodeDrag stageHeight pointerY = true ∧
    handleNodeDragEnd (handleNodeDrag stageHeight pointerY) g nodeId newX newY vx vy
        = some (DragOutcome.deleted (deleteBlock g nodeId)) := by
  have hb : handleNodeDrag stageHeight pointerY = true := decide_eq_true h
  refine ⟨hb, ?_⟩
  rw [hb, handleNodeDragEnd, if_pos rfl]

/-- Witness for claim C6 at a concrete release inside the disposal band. -/
theorem claim_C6_witness :
    handleNodeDrag 500 450 = true ∧
    handleNodeDragEnd (handleNodeDrag 500 450) ⟨[], []⟩ "b" 0 0 0 0
        = some (DragOutcome.deleted (deleteBlock ⟨[], []⟩ "b")) :=
  claim_C6 ⟨[], []⟩ "b" 500 450 0 0 0 0 (by norm_num)

lemma getConnectionPoint_eq (blocks : List Block) (bid : String) {n : Block}
    (hn : blocks.find? (fun x => x.id == bid) = some n) :
    getConnectionPoint blocks bid Side.left = ⟨n.position.x, n.position.y + 40⟩ ∧
    getConnectionPoint blocks bid Side.right = ⟨n.position.x + 160, n.position.y + 40⟩ := by
  constructor
  · rw [getConnectionPoint, hn, if_pos rfl]
    norm_num
  · rw [getConnectionPoint, hn, if_neg (by decide)]
    norm_num

/-- A block's two connection points are 160 layout units apart, so a point
within squared distance 6400 (distance 80) of the left point is strictly
closer to it than to the right point. -/
lemma left_lt_right (pos : Position) (n : Block)
    (h : distSq pos ⟨n.position.x, n.position.y + 40⟩ < 6400) :
    distSq pos ⟨n.position.x, n.position.y + 40⟩
      < distSq pos ⟨n.position.x + 160, n.position.y + 40⟩ := by
  dsimp only [distSq] at h ⊢
  nlinarith [sq_nonneg (pos.x - n.position.x - 80),
    sq_nonneg (pos.y - (n.position.y + 40))]

/-- Invariant of the hit-test scan: the running minimum never increases and
stays the distance of the running target; every candidate point already
scanned is at least the running minimum away; and the scan either leaves the
state unchanged or selects a non-origin scanned block strictly inside the
initial minimum. -/
lemma hitTestAux_spec (blocks : List Block) (origin : String) (pos : Position) :
    ∀ (rest : List Block) (m : ℚ) (t : Option (String × Side)),
      (∀ b ∈ rest, b ∈ blocks) → m ≤ 6400 →
      (∀ x s, t = some (x, s) → distSq pos (getConnectionPoint blocks x s) = m) →
      (hitTestAux blocks origin pos rest m t).1 ≤ m ∧
      (∀ x s, (hitTestAux blocks origin pos rest m t).2 = some (x, s) →
        distSq pos (getConnectionPoint blocks x s) = (hitTestAux blocks origin pos rest m t).1) ∧
      (∀ b ∈ rest, b.id ≠ origin → ∀ side : Side,
        (hitTestAux blocks origin pos rest m t).1
          ≤ distSq pos (getConnectionPoint blocks b.id side)) ∧
      ((hitTestAux blocks origin pos rest m t).2 = t
          ∧ (hitTestAux blocks origin pos rest m t).1 = m ∨
        ∃ b ∈ rest, b.id ≠ origin ∧ ∃ s : Side,
          (hitTestAux blocks origin pos rest m t).2 = some (b.id, s) ∧
          (hitTestAux blocks origin pos rest m t).1 < m) := by
  intro rest
  induction rest with
  | nil =>
    intro m t hsub hm ht
    refine ⟨le_refl m, ht, ?_, Or.inl ⟨rfl, rfl⟩⟩
    intro b hb
    exact absurd hb (List.not_mem_nil b)
  | cons b rest ih =>
    intro m t hsub hm ht
    have hbB : b ∈ blocks := hsub b (List.mem_cons_self b rest)
    have hsub' : ∀ x ∈ rest, x ∈ blocks := fun x hx => hsub x (List.mem_cons_of_mem b hx)
    by_cases hid : (b.id == origin) = true
    · have heq : hitTestAux blocks origin pos (b :: rest) m t
          = hitTestAux blocks origin pos rest m t := by
        rw [hitTestAux, if_pos hid]
      rw [heq]
      obtain ⟨h1, h2, h3, h4⟩ := ih m t hsub' hm ht
      refine ⟨h1, h2, ?_, ?_⟩
      · intro b' hb' hbo side
        rcases List.mem_cons.mp hb' with rfl | hb'
        · exact absurd (by simpa using hid) hbo
        · exact h3 b' hb' hbo side
      · rcases h4 with h4 | ⟨b', hb', hbo, s, hsome, hlt⟩
        · exact Or.inl h4
        · exact Or.inr ⟨b', List.mem_cons_of_mem b hb', hbo, s, hsome, hlt⟩
    · have hbo : b.id ≠ origin := by simpa using hid
      by_cases hl : distSq pos (getConnectionPoint blocks b.id Side.left) < m
      · have heq : hitTestAux blocks origin pos (b :: rest) m t
            = hitTestAux blocks origin pos rest
                (distSq pos (getConnectionPoint blocks b.id Side.left))
                (some (b.id, Side.left)) := by
          rw [hitTestAux, if_neg hid, if_pos hl]
        have hfound : (blocks.find? (fun x => x.id == b.id)).isSome :=
          List.find?_isSome.mpr ⟨b, hbB, by simp⟩
        obtain ⟨n, hn⟩ := Option.isSome_iff_exists.mp hfound
        have hcp := getConnectionPoint_eq blocks b.id hn
        have hlr : distSq pos (getConnectionPoint blocks b.id Side.left)
            < distSq pos (getConnectionPoint blocks b.id Side.right) := by
          rw [hcp.1, hcp.2]
          rw [hcp.1] at hl
          exact left_lt_right pos n (lt_of_lt_of_le hl hm)
        rw [heq]
        obtain ⟨h1, h2, h3, h4⟩ := ih _ (some (b.id, Side.left)) hsub'
          (le_of_lt (lt_of_lt_of_le hl hm))
          (by intro x s hxs; cases hxs; rfl)
        refine ⟨le_trans h1 (le_of_lt hl), h2, ?_, ?_⟩
        · intro b' hb' hbo' side
          rcases List.mem_cons.mp hb' with rfl | hb'
          · cases side
            · exact h1
            · exact le_trans h1 (le_of_lt hlr)
          · exact h3 b' hb' hbo' side
        · rcases h4 with ⟨ht2, hm2⟩ | ⟨b', hb', hbo', s, hsome, hlt⟩
          · exact Or.inr ⟨b, List.mem_cons_self b rest, hbo, Side.left,
              by rw [ht2], by rw [hm2]; exact hl⟩
          · exact Or.inr ⟨b', List.mem_cons_of_mem b hb', hbo', s, hsome, lt_trans hlt hl⟩
      · by_cases hr : distSq pos (getConnectionPoint blocks b.id Side.right) < m
        · have heq : hitTestAux blocks origin pos (b :: rest) m t
              = hitTestAux blocks origin pos rest
                  (distSq pos (getConnectionPoint blocks b.id Side.right))
                  (some (b.id, Side.right)) := by
            rw [hitTestAux, if_neg hid, if_neg hl, if_pos hr]
          rw [heq]
          obtain ⟨h1, h2, h3, h4⟩ := ih _ (some (b.id, Side.right)) hsub'
            (le_of_lt (lt_of_lt_of_le hr hm))
            (by intro x s hxs; cases hxs; rfl)
          have hml : m ≤ distSq pos (getConnectionPoint blocks b.id Side.left) := not_lt.mp hl
          refine ⟨le_trans h1 (le_of_lt hr), h2, ?_, ?_⟩
          · intro b' hb' hbo' side
            rcases List.mem_cons.mp hb' with rfl | hb'
            · cases side
              · exact le_trans (le_trans h1 (le_of_lt hr)) hml
              · exact h1
            · exact h3 b' hb' hbo' side
          · rcases h4 with ⟨ht2, hm2⟩ | ⟨b', hb', hbo', s, hsome, hlt⟩
            · exact Or.inr ⟨b, List.mem_cons_self b rest, hbo, Side.right,
                by rw [ht2], by rw [hm2]; exact hr⟩
            · exact Or.inr ⟨b', List.mem_cons_of_mem b hb', hbo', s, hsome, lt_trans hlt hr⟩
        · have heq : hitTestAux blocks origin pos (b :: rest) m t
              = hitTestAux blocks origin pos rest m t := by
            rw [hitTestAux, if_neg hid, if_neg hl, if_neg hr]
          rw [heq]
          obtain ⟨h1, h2, h3, h4⟩ := ih m t hsub' hm ht
          refine ⟨h1, h2, ?_, ?_⟩
          · intro b' hb' hbo' side
            rcases List.mem_cons.mp hb' with rfl | hb'
            · cases side
              · exact le_trans h1 (not_lt.mp hl)
              · exact le_trans h1 (not_lt.mp hr)
            · exact h3 b' hb' hbo' side
          · rcases h4 with h4 | ⟨b', hb', hbo', s, hsome, hlt⟩
            · exact Or.inl h4
            · exact Or.inr ⟨b', List.mem_cons_of_mem b hb', hbo', s, hsome, hlt⟩

/-- Any target selected by the scan is a scanned non-origin block (unless it
was the incoming target). -/
lemma hitTestAux_target (blocks : List Block) (origin : String) (pos : Position) :
    ∀ (rest : List Block) (m : ℚ) (t : Option (String × Side)) (x : String) (s : Side),
      (hitTestAux blocks origin pos rest m t).2 = some (x, s) →
      t = some (x, s) ∨ ∃ b ∈ rest, b.id ≠ origin ∧ b.id = x := by
  intro rest
  induction rest with
  | nil =>
    intro m t x s h
    exact Or.inl h
  | cons b rest ih =>
    intro m t x s h
    by_cases hid : (b.id == origin) = true
    · rw [hitTestAux, if_pos hid] at h
      rcases ih m t x s h with h' | ⟨b', hb', hbo', hx⟩
      · exact Or.inl h'
      · exact Or.inr ⟨b', List.mem_cons_of_mem b hb', hbo', hx⟩
    · have hbo : b.id ≠ origin := by simpa using hid
      by_cases hl : distSq pos (getConnectionPoint blocks b.id Side.left) < m
      · rw [hitTestAux, if_neg hid, if_pos hl] at h
        rcases ih _ _ x s h with h' | ⟨b', hb', hbo', hx⟩
        · cases h'
          exact Or.inr ⟨b, List.mem_cons_self b rest, hbo, rfl⟩
        · exact Or.inr ⟨b', List.mem_cons_of_mem b hb', hbo', hx⟩
      · by_cases hrr : distSq pos (getConnectionPoint blocks b.id Side.right) < m
        · rw [hitTestAux, if_neg hid, if_neg hl, if_pos hrr] at h
          rcases ih _ _ x s h with h' | ⟨b', hb', hbo', hx⟩
          · cases h'
            exact Or.inr ⟨b, List.mem_cons_self b rest, hbo, rfl⟩
          · exact Or.inr ⟨b', List.mem_cons_of_mem b hb', hbo', hx⟩
        · rw [hitTestAux, if_neg hid, if_neg hl, if_neg hrr] at h
          rcases ih m t x s h with h' | ⟨b', hb', hbo', hx⟩
          · exact Or.inl h'
          · exact Or.inr ⟨b', List.mem_cons_of_mem b hb', hbo', hx⟩

/-- Claim C9: with either fixed radius (20 or 30 layout units — squared: 400
or 900), the hit-test selects the nearest connection point of a non-origin
block strictly within the radius, or selects nothing when no such point is
within the radius, in which case no edge is added. -/
theorem claim_C9 (blocks : List Block) (origin : String) (pos : Position) (radiusSq : ℚ)
    (hr : radiusSq = 400 ∨ radiusSq = 900) :
    (hitTest blocks origin pos radiusSq = none →
      ∀ b ∈ blocks, b.id ≠ origin → ∀ side : Side,
        radiusSq ≤ distSq pos (getConnectionPoint blocks b.id side)) ∧
    (∀ tid tside, hitTest blocks origin pos radiusSq = some (tid, tside) →
      (∃ b ∈ blocks, b.id = tid ∧ tid ≠ origin) ∧
      distSq pos (getConnectionPoint blocks tid tside) < radiusSq ∧
      ∀ b ∈ blocks, b.id ≠ origin → ∀ side : Side,
        distSq pos (getConnectionPoint blocks tid tside)
          ≤ distSq pos (getConnectionPoint blocks b.id side)) ∧
    (∀ (edges : List Edge) (now : ℕ) (fside : Side),
      hitTest blocks origin pos radiusSq = none →
      handleConnectionEnd (some (origin, fside)) (hitTest blocks origin pos radiusSq) edges now
        = edges) := by
  have hm : radiusSq ≤ 6400 := by rcases hr with rfl | rfl <;> norm_num
  obtain ⟨h1, h2, h3, h4⟩ := hitTestAux_spec blocks origin pos blocks radiusSq none
    (fun b hb => hb) hm (by intro x s h; cases h)
  refine ⟨?_, ?_, ?_⟩
  · intro hnone b hb hbo side
    rw [hitTest] at hnone
    rcases h4 with ⟨-, hm2⟩ | ⟨b', -, -, s, hsome, -⟩
    · have h := h3 b hb hbo side
      rwa [hm2] at h
    · rw [hnone] at hsome
      cases hsome
  · intro tid tside hsome'
    rw [hitTest] at hsome'
    rcases h4 with ⟨ht2, -⟩ | ⟨b', hb', hbo', s, hsome, hlt⟩
    · rw [hsome'] at ht2
      cases ht2
    · obtain ⟨heq1, heq2⟩ : tid = b'.id ∧ tside = s := by
        simpa using hsome'.symm.trans hsome
      subst heq1
      subst heq2
      have hdist := h2 b'.id tside hsome'
      refine ⟨⟨b', hb', rfl, hbo'⟩, ?_, ?_⟩
      · rw [hdist]
        exact hlt
      · intro b hb hbo side
        rw [hdist]
        exact h3 b hb hbo side
  · intro edges now fside hnone
    rw [hnone]
    rfl

/-- A fixed block used by the concrete witnesses, placed at the origin. -/
def wBlockA : Block := { id := "a", type := "meta", position := ⟨0, 0⟩ }

/-- A second fixed block used by the concrete witnesses. -/
def wBlockB : Block := { id := "b", type := "party", position := ⟨300, 0⟩ }

/-- Witness for claim C9: releasing at (310, 45) with radius 20 hits the left
connection point (300, 40) of the non-origin block. -/
theorem claim_C9_witness :
    (∃ b ∈ [wBlockA, wBlockB], b.id = "b" ∧ "b" ≠ "a") ∧
    distSq ⟨310, 45⟩ (getConnectionPoint [wBlockA, wBlockB] "b" Side.left) < 400 ∧
    ∀ b ∈ [wBlockA, wBlockB], b.id ≠ "a" → ∀ side : Side,
      distSq ⟨310, 45⟩ (getConnectionPoint [wBlockA, wBlockB] "b" Side.left)
        ≤ distSq ⟨310, 45⟩ (getConnectionPoint [wBlockA, wBlockB] b.id side) := by
  have hn : [wBlockA, wBlockB].find? (fun x => x.id == wBlockB.id) = some wBlockB := rfl
  have hl : distSq ⟨310, 45⟩ (getConnectionPoint [wBlockA, wBlockB] wBlockB.id Side.left)
      < 400 := by
    rw [(getConnectionPoint_eq [wBlockA, wBlockB] wBlockB.id hn).1]
    norm_num [distSq, wBlockB]
  have hev : hitTest [wBlockA, wBlockB] "a" ⟨310, 45⟩ 400 = some ("b", Side.left) := by
    rw [hitTest, hitTestAux, if_pos (by decide), hitTestAux, if_neg (by decide), if_pos hl]
    rfl
  exact (claim_C9 [wBlockA, wBlockB] "a" ⟨310, 45⟩ 400 (Or.inl rfl)).2.1 "b" Side.left hev

/-- Claim C7: the connection-end pipeline never touches the block list, adds
no edge when the hit-test found no target, and any edge it appends has both
endpoints among the existing block ids — a candidate edge with an unknown
endpoint is rejected with the edge list exactly as it was. -/
theorem claim_C7 (g : Graph) (origin : String) (originSide : Side) (pos : Position)
    (radiusSq : ℚ) (now : ℕ) (horig : ∃ b ∈ g.blocks, b.id = origin) :
    (connectionDragEnd g origin originSide pos radiusSq now).blocks = g.blocks ∧
    (hitTest g.blocks origin pos radiusSq = none →
      (connectionDragEnd g origin originSide pos radiusSq now).edges = g.edges) ∧
    ((connectionDragEnd g origin originSide pos radiusSq now).edges = g.edges ∨
      ∃ e : Edge,
        (connectionDragEnd g origin originSide pos radiusSq now).edges = g.edges ++ [e] ∧
        (∃ b ∈ g.blocks, b.id = e.fromId) ∧ (∃ b ∈ g.blocks, b.id = e.toId)) := by
  refine ⟨rfl, ?_, ?_⟩
  · intro hnone
    show handleConnectionEnd (some (origin, originSide))
      (hitTest g.blocks origin pos radiusSq) g.edges now = g.edges
    rw [hnone]
    rfl
  · cases ht : hitTest g.blocks origin pos radiusSq with
    | none =>
      left
      show handleConnectionEnd (some (origin, originSide))
        (hitTest g.blocks origin pos radiusSq) g.edges now = g.edges
      rw [ht]
      rfl
    | some ts =>
      obtain ⟨tid, tside⟩ := ts
      have hex : ∃ b ∈ g.blocks, b.id ≠ origin ∧ b.id = tid := by
        rcases hitTestAux_target g.blocks origin pos g.blocks radiusSq none tid tside ht
          with h' | h'
        · cases h'
        · exact h'
      obtain ⟨bt, hbt, -, hbtid⟩ := hex
      by_cases hcond : (!(tid == "") && !(tid == origin)) = true
      · right
        refine ⟨{ id := "edge-" ++ origin ++ "-" ++ tid ++ "-" ++ toString now
                  fromId := origin, toId := tid, fromSide := originSide, toSide := tside },
          ?_, ?_, ⟨bt, hbt, hbtid⟩⟩
        · show handleConnectionEnd (some (origin, originSide))
              (hitTest g.blocks origin pos radiusSq) g.edges now
            = g.edges ++ [{ id := "edge-" ++ origin ++ "-" ++ tid ++ "-" ++ toString now
                            fromId := origin, toId := tid, fromSide := originSide,
                            toSide := tside }]
          rw [ht, handleConnectionEnd, if_pos hcond]
        · exact horig
      · left
        show handleConnectionEnd (some (origin, originSide))
          (hitTest g.blocks origin pos radiusSq) g.edges now = g.edges
        rw [ht, handleConnectionEnd, if_neg hcond]

/-- Witness for claim C7: a connection gesture ending with no valid target
leaves the graph exactly as it was. -/
theorem claim_C7_witness :
    (connectionDragEnd ⟨[wBlockA], []⟩ "a" Side.right ⟨0, 0⟩ 400 7).blocks = [wBlockA] ∧
    (connectionDragEnd ⟨[wBlockA], []⟩ "a" Side.right ⟨0, 0⟩ 400 7).edges = [] := by
  have h := claim_C7 ⟨[wBlockA], []⟩ "a" Side.right ⟨0, 0⟩ 400 7
    ⟨wBlockA, by simp, rfl⟩
  exact ⟨h.1, h.2.1 rfl⟩

/-- An unfilled meta block used by the concrete witnesses. -/
def wOldMeta : Block :=
  { id := "block-meta", type := "meta", filled := false, position := ⟨400, 50⟩ }

/-- A filled meta block used by the concrete witnesses. -/
def wNewMeta : Block :=
  { id := "block-meta", type := "meta", filled := true, position := ⟨400, 50⟩ }

/-- A filled client block used by the concrete witnesses. -/
def wFilledClient : Block :=
  { id := "block-client", type := "party", filled := true, position := ⟨650, 180⟩ }

/-- Witness for claim C2: two filled blocks, listed out of flow order, yield
exactly one edge, with deterministic id and right-to-left sides. -/
theorem claim_C2_witness :
    (generateAutomaticEdges [wFilledClient, wNewMeta]).length = 1 ∧
    ∀ e ∈ generateAutomaticEdges [wFilledClient, wNewMeta],
      e.fromSide = Side.right ∧ e.toSide = Side.left
        ∧ e.id = "edge-" ++ e.fromId ++ "-" ++ e.toId := by
  have h := claim_C2 [wFilledClient, wNewMeta]
  refine ⟨?_, h.2.2.2.2.2⟩
  rw [h.2.2.2.2.1]
  rfl

/-- Witness for claim C3: a flipped `filled` flag puts the id in the diff. -/
theorem claim_C3_witness :
    "block-meta" ∈ getChangedBlockIds [wOldMeta] [wNewMeta] :=
  (claim_C3 [wOldMeta] [wNewMeta]).2.2 wNewMeta (by simp) wOldMeta rfl (by decide)

end PebblePay
